import Mathlib

/-!
Verification of the hf2-cli flash/verify orchestrator (`hf2-cli/src/main.rs`)
and the hf2 `Dmesg` command codec (`src/dmesg.rs`).

Machine integers are modelled as `Nat` together with explicit checked
arithmetic: Rust's debug-build semantics detect every overflowing `u32`
(and underflowing `usize`) operation and panic, which we model by `Option`
(`none` = panic).  All byte sequences are `List Nat` with bytes below 256.
-/

/-- Checked 32-bit unsigned addition: `a + b` panics (`none`) on overflow. -/
def chkAdd (a b : Nat) : Option Nat :=
  if a + b < 2 ^ 32 then some (a + b) else none

/-- Checked unsigned subtraction: `a - b` panics (`none`) on underflow.
Used both for `u32` and for `usize` subtractions (the bound that matters
is only the lower one). -/
def chkSub (a b : Nat) : Option Nat :=
  if b ≤ a then some (a - b) else none

/-- Checked 32-bit unsigned multiplication: `a * b` panics (`none`) on overflow. -/
def chkMul (a b : Nat) : Option Nat :=
  if a * b < 2 ^ 32 then some (a * b) else none

/-- One shift-and-conditionally-xor round of CRC-16 with polynomial 0x1021,
as performed per bit by `crc_any::CRCu16::crc16xmodem` (MSB first). -/
def crc16Round (c : Nat) : Nat :=
  if c.testBit 15 then ((c <<< 1) ^^^ 0x1021) % 65536 else (c <<< 1) % 65536

/-- Folding one message byte into the CRC-16/XMODEM state: xor the byte into
the high byte of the state, then run 8 polynomial rounds. -/
def crc16Byte (c b : Nat) : Nat :=
  crc16Round^[8] ((c ^^^ (b <<< 8)) % 65536)

/-- CRC-16/XMODEM of a byte sequence, initial value 0, as computed by
`CRCu16::crc16xmodem()` / `digest` / `get_crc` in `crc_any`. -/
def crc16xmodem (data : List Nat) : Nat :=
  data.foldl crc16Byte 0

/-- Fuel-driven worker for `chunksList` (fuel only bounds the recursion;
`l.length` fuel suffices whenever `page > 0`). -/
def chunksAux : Nat → Nat → List Nat → List (List Nat)
  | 0, _, _ => []
  | fuel + 1, page, l =>
    if l = [] then [] else l.take page :: chunksAux fuel page (l.drop page)

/-- Rust's `slice::chunks(page)`: consecutive chunks of `page` bytes (the
last possibly shorter).  Every caller in `main.rs` has `page > 0` (Rust
panics on `chunks(0)`; the orchestrator functions below guard that case). -/
def chunksList (page : Nat) (l : List Nat) : List (List Nat) :=
  chunksAux l.length page l

/-- Models `(binary.len() as f64 / f64::from(flash_page_size)).ceil() as u32`
from `main.rs` lines 101 and 184.  For `page > 0` and `len < 2^53` both
operands are exactly representable in binary64 and the correctly rounded
quotient always has the exact ceiling `(len + page - 1) / page` (rounding the
quotient down past the true ceiling would force `len ≥ 2^53`), and the
`as u32` cast saturates at `2^32 - 1`.  For `page = 0` the quotient is NaN
(cast: 0) for an empty binary and +inf (cast: `u32::MAX`) otherwise. -/
def paddedNumPages (page len : Nat) : Nat :=
  if page = 0 then (if len = 0 then 0 else 2 ^ 32 - 1)
  else min ((len + page - 1) / page) (2 ^ 32 - 1)

/-- The zero-padding step shared verbatim by `flash` (main.rs 100-111) and
`verify` (main.rs 183-188): compute `padded_num_pages`, then
`padded_size = padded_num_pages * flash_page_size` (u32, checked), then push
`padded_size - binary.len()` (usize, checked) zero bytes. -/
def padBinary (page : Nat) (binary : List Nat) : Option (List Nat) := do
  let padded_size ← chkMul (paddedNumPages page binary.length) page
  let extra ← chkSub padded_size binary.length
  pure (binary ++ List.replicate extra 0)

/-- The loop `for target_address in (address..top_address).step_by(steps)`
with body computing `pages_left = (top_address - target_address) / page` and
`num_pages = if pages_left < max_pages then pages_left else max_pages`
(main.rs 130-141 and 196-207), producing the list of
`(target_address, num_pages)` arguments passed to `checksum_pages`.
Fuel-driven; `top - ta` fuel suffices whenever `steps > 0`. -/
def batchLoopAux : Nat → Nat → Nat → Nat → Nat → Nat → List (Nat × Nat)
  | 0, _, _, _, _, _ => []
  | fuel + 1, ta, top, steps, page, maxp =>
    if ta < top then
      (ta, if (top - ta) / page < maxp then (top - ta) / page else maxp) ::
        batchLoopAux fuel (ta + steps) top steps page maxp
    else []

/-- The checksum-batch planning shared by `flash` (main.rs 125-141) and
`verify` (main.rs 191-207): `top_address = address + padded_size` (u32),
`max_pages = max_message_size / 2 - 2` (u32, underflow panics),
`steps = max_pages * flash_page_size` (u32), then the `step_by` loop
(`step_by` itself panics when the step is 0). -/
def checksumBatchPlan (address padded_size page mms : Nat) : Option (List (Nat × Nat)) := do
  let top ← chkAdd address padded_size
  let maxp ← chkSub (mms / 2) 2
  let steps ← chkMul maxp page
  if steps = 0 then none
  else some (batchLoopAux (top - address) address top steps page maxp)

/-- The checksum-diff write loop of `flash` (main.rs 145-164), one step per
page chunk with its running index: read `device_checksums[page_index]`
(panic when out of bounds), compare with the local CRC-16/XMODEM, and when
they differ compute `target_address = address + page * page_index` (u32,
checked) and emit the `write_flash_page` call `(target_address, page bytes)`. -/
def writeLoop (address page : Nat) (dev : List Nat) : Nat → List (List Nat) → Option (List (Nat × List Nat))
  | _, [] => some []
  | i, pg :: rest => do
    let dc ← dev[i]?
    if crc16xmodem pg ≠ dc then do
      let off ← chkMul page i
      let ta ← chkAdd address off
      let tail ← writeLoop address page dev (i + 1) rest
      pure ((ta, pg) :: tail)
    else
      writeLoop address page dev (i + 1) rest

/-- The checksum-diff write phase of `flash` over the padded binary:
chunk into pages (`chunks` panics for page size 0) and run `writeLoop`.
Returns the list of issued `write_flash_page` calls. -/
def flashWrites (address page : Nat) (binary dev : List Nat) : Option (List (Nat × List Nat)) :=
  if page = 0 then none
  else writeLoop address page dev 0 (chunksList page binary)

/-- The skip-checksum write loop of `flash` (main.rs 114-122): write every
page unconditionally at `address + page * page_index` (u32, checked). -/
def writeAllLoop (address page : Nat) : Nat → List (List Nat) → Option (List (Nat × List Nat))
  | _, [] => some []
  | i, pg :: rest => do
    let off ← chkMul page i
    let ta ← chkAdd address off
    let tail ← writeAllLoop address page (i + 1) rest
    pure ((ta, pg) :: tail)

/-- The local checksum pass of `verify` (main.rs 209-217): CRC-16/XMODEM of
every page chunk of the padded binary, in order. -/
def binaryChecksums (page : Nat) (binary : List Nat) : List Nat :=
  (chunksList page binary).map crc16xmodem

/-- The comparison step of `verify` (main.rs 219-223):
`assert_eq!(&binary_checksums[..binary_checksums.len()],
&device_checksums[..binary_checksums.len()])`.  Slicing the device sequence
panics (`none`) when it is shorter than the local one; otherwise the pair of
sequences handed to `assert_eq!` (and printed in full on mismatch) is
returned. -/
def verifyCompare (page : Nat) (binary dev : List Nat) : Option (List Nat × List Nat) :=
  let bc := binaryChecksums page binary
  if bc.length ≤ dev.length then some (bc, dev.take bc.length) else none

/-- Device mode reported by BinInfo (`hf2::BinInfoMode`). -/
inductive BinInfoMode where
  | bootloader
  | userApplication
  deriving DecidableEq

/-- The BinInfo response fields used by the orchestrator (`hf2::BinInfo`). -/
structure BinInfo where
  mode : BinInfoMode
  flash_page_size : Nat
  flash_num_pages : Nat
  max_message_size : Nat

/-- The HF2 commands the orchestrator can issue, with their arguments. -/
inductive HCmd where
  | binInfoQ
  | startFlash
  | writeFlashPage (target : Nat) (page : List Nat)
  | checksumPages (target num_pages : Nat)
  | resetIntoApp
  deriving DecidableEq

/-- The command trace of `verify` (main.rs 171-225): query BinInfo, issue
StartFlash when the reported mode is not Bootloader, pad the binary, issue
the planned ChecksumPages batches (the device's per-batch answers, given by
`devChk`, are concatenated in request order), then run the comparison
(`none` when any step panics). -/
def verifyTrace (bi : BinInfo) (binary : List Nat) (address : Nat)
    (devChk : Nat → Nat → List Nat) : Option (List HCmd) := do
  let padded ← padBinary bi.flash_page_size binary
  let plan ← checksumBatchPlan address padded.length bi.flash_page_size bi.max_message_size
  let deviceChecksums := plan.flatMap fun b => devChk b.1 b.2
  let _ ← verifyCompare bi.flash_page_size padded deviceChecksums
  pure ([HCmd.binInfoQ]
    ++ (if bi.mode ≠ BinInfoMode.bootloader then [HCmd.startFlash] else [])
    ++ plan.map fun b => HCmd.checksumPages b.1 b.2)

/-- The command trace of `flash` (main.rs 87-169): query BinInfo, issue
StartFlash when the reported mode is not Bootloader, pad the binary, then
either write every page (skip-checksum mode) or plan the checksum batches,
concatenate the device answers and write only the differing pages; finally
issue ResetIntoApp. -/
def flashTrace (bi : BinInfo) (binary : List Nat) (address : Nat) (skip_checksum : Bool)
    (devChk : Nat → Nat → List Nat) : Option (List HCmd) := do
  let padded ← padBinary bi.flash_page_size binary
  if skip_checksum then
    if bi.flash_page_size = 0 then none
    else do
      let ws ← writeAllLoop address bi.flash_page_size 0 (chunksList bi.flash_page_size padded)
      pure ([HCmd.binInfoQ]
        ++ (if bi.mode ≠ BinInfoMode.bootloader then [HCmd.startFlash] else [])
        ++ ws.map (fun w => HCmd.writeFlashPage w.1 w.2)
        ++ [HCmd.resetIntoApp])
  else do
    let plan ← checksumBatchPlan address padded.length bi.flash_page_size bi.max_message_size
    let deviceChecksums := plan.flatMap fun b => devChk b.1 b.2
    let ws ← flashWrites address bi.flash_page_size padded deviceChecksums
    pure ([HCmd.binInfoQ]
      ++ (if bi.mode ≠ BinInfoMode.bootloader then [HCmd.startFlash] else [])
      ++ plan.map (fun b => HCmd.checksumPages b.1 b.2)
      ++ ws.map (fun w => HCmd.writeFlashPage w.1 w.2)
      ++ [HCmd.resetIntoApp])

/-- Modelled from the spec: the status of a decoded command response,
"Success, Failure-with-code" (the enum itself lives in `command.rs`, which is
not among the given sources; `dmesg.rs` only compares it against Success). -/
inductive CommandResponseStatus where
  | success
  | failure (code : Nat)
  deriving DecidableEq

/-- Modelled from the spec: a decoded command response, "status code
(enumerated) and payload (byte sequence)" (`command.rs` is not among the
given sources). -/
structure CommandResponse where
  status : CommandResponseStatus
  data : List Nat

/-- The error type as visible from `dmesg.rs`: `Error::CommandNotRecognized`
is returned on a non-Success status; the two decode-failure variants
(modelled from the spec's DecodeError split: truncated payload vs invalid
text encoding) are produced by the scroll read and the UTF-8 check. -/
inductive Error where
  | commandNotRecognized
  | truncated
  | invalidUtf8
  deriving DecidableEq

/-- The decoded Dmesg response (`DmesgResult` in `dmesg.rs`).  `logs` holds
the UTF-8 bytes of the decoded `String` (which are exactly the payload
bytes the Rust code copied and validated). -/
structure DmesgResult where
  logs : List Nat
  deriving DecidableEq

/-- Whether a continuation byte is in `0x80..=0xBF`. -/
def utf8Cont (b : Nat) : Bool :=
  decide (0x80 ≤ b ∧ b ≤ 0xBF)

/-- Validity of a byte sequence as UTF-8, exactly Rust's
`core::str::from_utf8` acceptance (no overlong forms, no surrogates,
nothing above U+10FFFF). -/
def validUtf8 : List Nat → Bool
  | [] => true
  | b :: rest =>
    if b ≤ 0x7F then validUtf8 rest
    else if 0xC2 ≤ b ∧ b ≤ 0xDF then
      match rest with
      | c1 :: rest1 => utf8Cont c1 && validUtf8 rest1
      | [] => false
    else if b = 0xE0 then
      match rest with
      | c1 :: c2 :: rest2 =>
        decide (0xA0 ≤ c1 ∧ c1 ≤ 0xBF) && utf8Cont c2 && validUtf8 rest2
      | _ => false
    else if (0xE1 ≤ b ∧ b ≤ 0xEC) ∨ b = 0xEE ∨ b = 0xEF then
      match rest with
      | c1 :: c2 :: rest2 => utf8Cont c1 && utf8Cont c2 && validUtf8 rest2
      | _ => false
    else if b = 0xED then
      match rest with
      | c1 :: c2 :: rest2 =>
        decide (0x80 ≤ c1 ∧ c1 ≤ 0x9F) && utf8Cont c2 && validUtf8 rest2
      | _ => false
    else if b = 0xF0 then
      match rest with
      | c1 :: c2 :: c3 :: rest3 =>
        decide (0x90 ≤ c1 ∧ c1 ≤ 0xBF) && utf8Cont c2 && utf8Cont c3 && validUtf8 rest3
      | _ => false
    else if 0xF1 ≤ b ∧ b ≤ 0xF3 then
      match rest with
      | c1 :: c2 :: c3 :: rest3 =>
        utf8Cont c1 && utf8Cont c2 && utf8Cont c3 && validUtf8 rest3
      | _ => false
    else if b = 0xF4 then
      match rest with
      | c1 :: c2 :: c3 :: rest3 =>
        decide (0x80 ≤ c1 ∧ c1 ≤ 0x8F) && utf8Cont c2 && utf8Cont c3 && validUtf8 rest3
      | _ => false
    else false

/-- scroll's `gread_inout_with` on a `&[u8]` source into a buffer of `n`
bytes starting at `offset`: copies `n` bytes and advances the offset, or
fails (truncated source) when fewer than `n` bytes remain. -/
def greadInout (src : List Nat) (offset n : Nat) : Option (List Nat × Nat) :=
  if offset + n ≤ src.length then some ((src.drop offset).take n, offset + n) else none

/-- `DmesgResult::try_from_ctx` (dmesg.rs 32-44): allocate a buffer of
`this.len()` bytes, `gread_inout_with` from offset 0, then
`core::str::from_utf8`; returns the decoded result and the consumed
offset. -/
def dmesgTryFromCtx (this : List Nat) : Except Error (DmesgResult × Nat) :=
  match greadInout this 0 this.length with
  | none => .error .truncated
  | some (bytes, offset) =>
    if validUtf8 bytes then .ok (⟨bytes⟩, offset) else .error .invalidUtf8

/-- `Dmesg::send` from the receive step on (dmesg.rs 15-23): given the
reassembled response, fail with `Error::CommandNotRecognized` when the
status is not Success, otherwise decode the payload via
`DmesgResult::try_from_ctx`. -/
def dmesgSend (rsp : CommandResponse) : Except Error DmesgResult :=
  if rsp.status ≠ CommandResponseStatus.success then .error .commandNotRecognized
  else
    match dmesgTryFromCtx rsp.data with
    | .ok (res, _) => .ok res
    | .error e => .error e

set_option maxRecDepth 20000 in
/-- The CRC-16/XMODEM reference test vector: the ASCII bytes of
"123456789" hash to 0x31C3. -/
theorem crc16xmodem_reference_vector :
    crc16xmodem [0x31, 0x32, 0x33, 0x34, 0x35, 0x36, 0x37, 0x38, 0x39] = 0x31C3 := by
  decide

/-! ### Chunking lemmas -/

lemma chunksAux_nil (fuel page : Nat) : chunksAux fuel page [] = [] := by
  cases fuel <;> simp [chunksAux]

lemma chunksAux_eq (page : Nat) (hp : 0 < page) :
    ∀ (n fuel : Nat) (l : List Nat), l.length = n * page → l.length ≤ fuel →
      chunksAux fuel page l = (List.range n).map fun i => (l.drop (i * page)).take page := by
  intro n
  induction n with
  | zero =>
    intro fuel l hl _
    have hnil : l = [] := List.eq_nil_of_length_eq_zero (by simpa using hl)
    subst hnil
    simp [chunksAux_nil]
  | succ n ih =>
    intro fuel l hl hfuel
    have hple : page ≤ l.length := by
      rw [hl, Nat.succ_mul]; omega
    have hpos : 0 < l.length := lt_of_lt_of_le hp hple
    cases fuel with
    | zero => omega
    | succ f =>
      have hne : l ≠ [] := by
        intro h; rw [h] at hpos; simp at hpos
      have hdroplen : (l.drop page).length = n * page := by
        rw [List.length_drop, hl, Nat.succ_mul, Nat.add_sub_cancel]
      have hfuel' : (l.drop page).length ≤ f := by
        rw [hdroplen]
        rw [hl, Nat.succ_mul] at hfuel
        omega
      simp only [chunksAux, if_neg hne]
      rw [ih f (l.drop page) hdroplen hfuel']
      rw [List.range_succ_eq_map, List.map_cons, List.map_map]
      congr 1
      · simp
      · congr 1
        funext i
        show ((l.drop page).drop (i * page)).take page
            = (l.drop (Nat.succ i * page)).take page
        rw [List.drop_drop, Nat.succ_mul, Nat.add_comm]

lemma chunksList_eq (page n : Nat) (hp : 0 < page) (l : List Nat) (hl : l.length = n * page) :
    chunksList page l = (List.range n).map fun i => (l.drop (i * page)).take page :=
  chunksAux_eq page hp n l.length l hl le_rfl

lemma chunksList_length (page n : Nat) (hp : 0 < page) (l : List Nat)
    (hl : l.length = n * page) : (chunksList page l).length = n := by
  rw [chunksList_eq page n hp l hl]; simp

/-! ### Padding lemmas -/

lemma pad_le (page len : Nat) (hp : 0 < page) : len ≤ (len + page - 1) / page * page := by
  have h1 := Nat.div_add_mod (len + page - 1) page
  have h2 : (len + page - 1) % page < page := Nat.mod_lt _ hp
  rw [Nat.mul_comm]
  omega

lemma pad_min (page len m : Nat) (hp : 0 < page) (hd : page ∣ m) (hl : len ≤ m) :
    (len + page - 1) / page * page ≤ m := by
  obtain ⟨t, rfl⟩ := hd
  have h : (len + page - 1) / page ≤ t := by
    rw [Nat.div_le_iff_le_mul_add_pred hp]
    omega
  calc (len + page - 1) / page * page ≤ t * page := Nat.mul_le_mul_right page h
    _ = page * t := Nat.mul_comm t page

lemma paddedNumPages_eq (page len : Nat) (hp : 0 < page)
    (hfit : (len + page - 1) / page * page < 2 ^ 32) :
    paddedNumPages page len = (len + page - 1) / page := by
  have hq : (len + page - 1) / page ≤ (len + page - 1) / page * page :=
    Nat.le_mul_of_pos_right _ hp
  rw [paddedNumPages, if_neg (Nat.pos_iff_ne_zero.mp hp)]
  exact Nat.min_eq_left (by omega)

/-! ### Dmesg decoder lemma -/

lemma dmesgTryFromCtx_eq (data : List Nat) :
    dmesgTryFromCtx data =
      if validUtf8 data then Except.ok (⟨data⟩, data.length)
      else Except.error Error.invalidUtf8 := by
  simp [dmesgTryFromCtx, greadInout, List.take_length]

/-- C2 counterexample: for a 2^32-byte image and flash_page_size = 256 the
u32 computation `padded_num_pages * flash_page_size` overflows (the value
wraps to 0 in release builds, panics in debug builds), so the code does not
produce the claimed padded image; the claim's universal quantification over
every firmware byte sequence fails. -/
theorem padding_u32_overflow_counterexample :
    padBinary 256 (List.replicate (2 ^ 32) 0) = none := by
  have hlen : (List.replicate (2 ^ 32) (0 : Nat)).length = 2 ^ 32 :=
    List.length_replicate _ _
  have h0 : paddedNumPages 256 (2 ^ 32) = 16777216 := by decide
  have h1 : chkMul 16777216 256 = none := by decide
  simp only [padBinary, hlen, h0, h1, Option.bind_eq_bind, Option.none_bind]

/-- C2 (amended): for every image whose smallest page-multiple padded size
fits in a u32, both flash and verify (which share this padding code) append
exactly enough zero bytes to reach the smallest multiple of
`flash_page_size` not below the original length, appending only and never
changing or removing an original byte. -/
theorem padding_pads_to_smallest_page_multiple (page : Nat) (binary : List Nat)
    (hp : 0 < page) (hfit : (binary.length + page - 1) / page * page < 2 ^ 32) :
    padBinary page binary =
      some (binary ++
        List.replicate ((binary.length + page - 1) / page * page - binary.length) 0)
    ∧ (binary ++
        List.replicate ((binary.length + page - 1) / page * page - binary.length) 0).length
      = (binary.length + page - 1) / page * page
    ∧ binary.length ≤ (binary.length + page - 1) / page * page
    ∧ page ∣ (binary.length + page - 1) / page * page
    ∧ ∀ m, page ∣ m → binary.length ≤ m → (binary.length + page - 1) / page * page ≤ m := by
  have hle := pad_le page binary.length hp
  refine ⟨?_, ?_, hle, Dvd.intro_left _ rfl, fun m hd hm => pad_min page binary.length m hp hd hm⟩
  · have h1 : chkMul (paddedNumPages page binary.length) page
        = some ((binary.length + page - 1) / page * page) := by
      rw [paddedNumPages_eq page binary.length hp hfit]
      simp only [chkMul, if_pos hfit]
    have h2 : chkSub ((binary.length + page - 1) / page * page) binary.length
        = some ((binary.length + page - 1) / page * page - binary.length) := by
      simp only [chkSub, if_pos hle]
    simp only [padBinary, h1, h2, Option.bind_eq_bind, Option.some_bind]
    rfl
  · simp only [List.length_append, List.length_replicate]
    omega

/-- C2 witness: a 10-byte image with flash_page_size 256 pads to exactly one
page of 256 bytes, the original 10 bytes followed by 246 zero bytes. -/
theorem padding_pads_to_smallest_page_multiple_witness :
    0 < 256
    ∧ ((List.replicate 10 (7 : Nat)).length + 256 - 1) / 256 * 256 < 2 ^ 32
    ∧ padBinary 256 (List.replicate 10 7) =
        some (List.replicate 10 7 ++
          List.replicate ((((List.replicate 10 (7 : Nat)).length + 256 - 1) / 256 * 256)
            - (List.replicate 10 (7 : Nat)).length) 0) :=
  ⟨by decide, by decide,
    (padding_pads_to_smallest_page_multiple 256 (List.replicate 10 7)
      (by decide) (by decide)).1⟩

/-- C6 counterexample: two responses with different non-Success status codes
produce the identical error `Error::CommandNotRecognized`, so the failure
does not carry the device's status code (and the invalid-UTF-8 payload of
the first response is never decoded). -/
theorem dmesg_error_code_not_carried_counterexample :
    dmesgSend ⟨CommandResponseStatus.failure 1, [255]⟩ =
      dmesgSend ⟨CommandResponseStatus.failure 2, []⟩
    ∧ CommandResponseStatus.failure 1 ≠ CommandResponseStatus.failure 2
    ∧ dmesgSend ⟨CommandResponseStatus.failure 1, [255]⟩ =
        Except.error Error.commandNotRecognized := by
  refine ⟨rfl, by decide, rfl⟩

/-- C6 (amended): for every response whose status is not Success, Dmesg
fails with the fixed error `Error::CommandNotRecognized` (which carries no
status code), and the payload is never interpreted: the result does not
depend on the payload bytes at all. -/
theorem dmesg_nonsuccess_fails_without_payload_decode
    (st : CommandResponseStatus) (data data2 : List Nat)
    (h : st ≠ CommandResponseStatus.success) :
    dmesgSend ⟨st, data⟩ = Except.error Error.commandNotRecognized
    ∧ dmesgSend ⟨st, data⟩ = dmesgSend ⟨st, data2⟩ := by
  constructor <;> simp [dmesgSend, h]

/-- C6 witness: instantiation at a concrete non-Success status with an
invalid-UTF-8 payload. -/
theorem dmesg_nonsuccess_fails_without_payload_decode_witness :
    CommandResponseStatus.failure 3 ≠ CommandResponseStatus.success
    ∧ dmesgSend ⟨CommandResponseStatus.failure 3, [255]⟩ =
        Except.error Error.commandNotRecognized
    ∧ dmesgSend ⟨CommandResponseStatus.failure 3, [255]⟩ =
        dmesgSend ⟨CommandResponseStatus.failure 3, []⟩ :=
  ⟨by decide,
    (dmesg_nonsuccess_fails_without_payload_decode _ [255] [] (by decide)).1,
    (dmesg_nonsuccess_fails_without_payload_decode _ [255] [] (by decide)).2⟩

/-- C7: the Dmesg payload decoder succeeds exactly on valid UTF-8 payloads,
in which case the decoded text is the payload bytes themselves, and fails
with the invalid-encoding decode error otherwise. -/
theorem dmesg_decode_utf8 (data : List Nat) :
    dmesgTryFromCtx data =
      if validUtf8 data then Except.ok (⟨data⟩, data.length)
      else Except.error Error.invalidUtf8 :=
  dmesgTryFromCtx_eq data

/-- C10: the Dmesg payload decoder is total over payload length: it never
fails with the truncated-payload error, it fails exactly on invalid UTF-8,
and every success decodes the whole payload, consuming exactly
`data.length` bytes (the empty payload included). -/
theorem dmesg_decoder_total_never_truncated (data : List Nat) :
    dmesgTryFromCtx data ≠ Except.error Error.truncated
    ∧ (dmesgTryFromCtx data = Except.error Error.invalidUtf8 ↔ validUtf8 data = false)
    ∧ (dmesgTryFromCtx data = Except.ok (⟨data⟩, data.length)
        ∨ dmesgTryFromCtx data = Except.error Error.invalidUtf8) := by
  rw [dmesgTryFromCtx_eq]
  by_cases h : validUtf8 data <;> simp [h]

/-! ### Write-loop lemmas -/

lemma writeLoop_some_length (address page : Nat) (dev : List Nat) :
    ∀ (l : List (List Nat)) (i : Nat) (ws : List (Nat × List Nat)),
      writeLoop address page dev i l = some ws → l = [] ∨ i + l.length ≤ dev.length := by
  intro l
  induction l with
  | nil =>
    intro i ws _
    exact Or.inl rfl
  | cons pg rest ih =>
    intro i ws h
    refine Or.inr ?_
    rw [writeLoop] at h
    cases hdc : dev[i]? with
    | none =>
      rw [hdc] at h
      simp [Option.bind_eq_bind] at h
    | some dc =>
      have hi : i < dev.length := by
        by_contra hge
        rw [List.getElem?_eq_none (by omega)] at hdc
        exact Option.noConfusion hdc
      rw [hdc, Option.bind_eq_bind, Option.some_bind] at h
      have hrest : ∀ ws', writeLoop address page dev (i + 1) rest = some ws' →
          i + (pg :: rest).length ≤ dev.length := by
        intro ws' h'
        rcases ih (i + 1) ws' h' with hnil | hle
        · subst hnil; simp; omega
        · simp only [List.length_cons]; omega
      by_cases hx : crc16xmodem pg ≠ dc
      · rw [if_pos hx] at h
        simp only [Option.bind_eq_bind, Option.bind_eq_some] at h
        obtain ⟨off, _, ta, _, tail, htail, _⟩ := h
        exact hrest tail htail
      · rw [if_neg hx] at h
        exact hrest ws h

set_option maxRecDepth 40000 in
/-- C8: the checksum-diff write loop of flash indexes the concatenated device
checksum sequence by local page index and the verify comparison slices it up
to the local page count, both without bounds checks: they complete without
panicking only when the device returned at least as many checksums as there
are local pages, and concrete short device responses make both panic
(`none`). -/
theorem device_checksums_must_cover_local_pages :
    (∀ address page binary dev ws, flashWrites address page binary dev = some ws →
        (chunksList page binary).length ≤ dev.length)
    ∧ (∀ page binary dev r, verifyCompare page binary dev = some r →
        (chunksList page binary).length ≤ dev.length)
    ∧ flashWrites 0 4 [1, 2, 3, 4] [] = none
    ∧ verifyCompare 4 [1, 2, 3, 4] [] = none := by
  refine ⟨?_, ?_, by decide, by decide⟩
  · intro address page binary dev ws h
    rw [flashWrites] at h
    by_cases hp : page = 0
    · rw [if_pos hp] at h
      exact Option.noConfusion h
    · rw [if_neg hp] at h
      rcases writeLoop_some_length address page dev (chunksList page binary) 0 ws h with
        hnil | hle
      · rw [hnil]; simp
      · omega
  · intro page binary dev r h
    rw [verifyCompare] at h
    by_cases hle : (binaryChecksums page binary).length ≤ dev.length
    · simpa [binaryChecksums] using hle
    · rw [if_neg hle] at h
      exact Option.noConfusion h

set_option maxRecDepth 40000 in
/-- C8 witness: a device response with exactly one checksum lets both the
flash write loop and the verify comparison of a one-page image complete. -/
theorem device_checksums_must_cover_local_pages_witness :
    (chunksList 4 [1, 2, 3, 4]).length ≤ [(0 : Nat)].length
    ∧ (chunksList 4 [1, 2, 3, 4]).length ≤ [(3331 : Nat)].length :=
  ⟨device_checksums_must_cover_local_pages.1 5 4 [1, 2, 3, 4] [0] [(5, [1, 2, 3, 4])]
      (by decide),
    device_checksums_must_cover_local_pages.2.1 4 [1, 2, 3, 4] [3331] ([3331], [3331])
      (by decide)⟩

lemma range_filter_map_succ {β : Type} (n : Nat) (q : Nat → Bool) (g : Nat → β) :
    ((List.range (n + 1)).filter q).map g
      = (if q 0 then [g 0] else [])
        ++ (((List.range n).filter fun j => q (j + 1)).map fun j => g (j + 1)) := by
  rw [List.range_succ_eq_map, List.filter_cons]
  by_cases h : q 0
  · simp only [h, if_true, List.map_cons, List.filter_map, List.map_map, List.cons_append,
      List.nil_append, List.singleton_append]
    rfl
  · simp only [h, Bool.false_eq_true, if_false, List.filter_map, List.map_map,
      List.nil_append]
    rfl

lemma writeLoop_eq (address page : Nat) (dev : List Nat) (hp : 0 < page) :
    ∀ (l : List (List Nat)) (i : Nat), i + l.length ≤ dev.length →
      address + page * (i + l.length) ≤ 2 ^ 32 →
      writeLoop address page dev i l =
        some (((List.range l.length).filter fun j =>
            crc16xmodem (l.getD j []) ≠ dev.getD (i + j) 0).map
          fun j => (address + page * (i + j), l.getD j [])) := by
  intro l
  induction l with
  | nil =>
    intro i _ _
    simp [writeLoop]
  | cons pg rest ih =>
    intro i hlen hov
    have hlc : (pg :: rest).length = rest.length + 1 := by simp
    have hi : i < dev.length := by rw [hlc] at hlen; omega
    have hdc : dev[i]? = some (dev.getD i 0) := by
      rw [List.getElem?_eq_getElem hi, List.getD_eq_getElem dev 0 hi]
    have hov1 : address + page * i < 2 ^ 32 := by
      have h1 : page * (i + (pg :: rest).length) = page * i + page * (rest.length + 1) := by
        rw [hlc]; ring
      have h2 : 1 ≤ page * (rest.length + 1) :=
        Nat.one_le_iff_ne_zero.mpr
          (Nat.mul_ne_zero (Nat.pos_iff_ne_zero.mp hp) (Nat.succ_ne_zero _))
      omega
    have hmul : chkMul page i = some (page * i) := by
      simp only [chkMul, if_pos (show page * i < 2 ^ 32 by omega)]
    have hadd : chkAdd address (page * i) = some (address + page * i) := by
      simp only [chkAdd, if_pos hov1]
    have hlen' : (i + 1) + rest.length ≤ dev.length := by rw [hlc] at hlen; omega
    have hov' : address + page * ((i + 1) + rest.length) ≤ 2 ^ 32 := by
      have he : (i + 1) + rest.length = i + (pg :: rest).length := by rw [hlc]; omega
      rw [he]; exact hov
    have ihh := ih (i + 1) hlen' hov'
    have hidx : ∀ j : Nat, i + 1 + j = i + (j + 1) := fun j => by omega
    have htail :
        (((List.range rest.length).filter fun j =>
            crc16xmodem (rest.getD j []) ≠ dev.getD (i + 1 + j) 0).map
          fun j => (address + page * (i + 1 + j), rest.getD j []))
        = (((List.range rest.length).filter fun j =>
            crc16xmodem ((pg :: rest).getD (j + 1) []) ≠ dev.getD (i + (j + 1)) 0).map
          fun j => (address + page * (i + (j + 1)), (pg :: rest).getD (j + 1) [])) := by
      have hfil : (fun j => decide (crc16xmodem (rest.getD j []) ≠ dev.getD (i + 1 + j) 0))
          = fun j =>
              decide (crc16xmodem ((pg :: rest).getD (j + 1) []) ≠ dev.getD (i + (j + 1)) 0) := by
        funext j
        rw [List.getD_cons_succ, hidx j]
      have hmapf : (fun j => (address + page * (i + 1 + j), rest.getD j []))
          = fun j => (address + page * (i + (j + 1)), (pg :: rest).getD (j + 1) []) := by
        funext j
        rw [List.getD_cons_succ, hidx j]
      rw [hfil, hmapf]
    rw [writeLoop, hdc, Option.bind_eq_bind, Option.some_bind]
    rw [hlc, range_filter_map_succ]
    by_cases hx : crc16xmodem pg = dev.getD i 0
    · have hcond : ¬(crc16xmodem pg ≠ dev.getD i 0) := fun h => h hx
      rw [if_neg hcond, ihh, htail]
      have hq0 : (decide (crc16xmodem ((pg :: rest).getD 0 []) ≠ dev.getD (i + 0) 0)) = false := by
        simp only [List.getD_cons_zero, Nat.add_zero]
        exact decide_eq_false hcond
      rw [hq0]
      simp
    · have hcond : crc16xmodem pg ≠ dev.getD i 0 := hx
      rw [if_pos hcond]
      simp only [Option.bind_eq_bind, hmul, hadd, ihh, Option.some_bind]
      have hq0 : (decide (crc16xmodem ((pg :: rest).getD 0 []) ≠ dev.getD (i + 0) 0)) = true := by
        simp only [List.getD_cons_zero, Nat.add_zero]
        exact decide_eq_true hcond
      rw [hq0]
      simp only [if_true, List.singleton_append, Option.pure_def, Option.some_inj]
      rw [htail]
      simp

/-- C1: in checksum-diff mode, for every padded image (a whole number of
pages) and every device checksum sequence covering the local pages, the
write phase of flash issues WriteFlashPage exactly for the page indices
whose local CRC-16/XMODEM (computed over the page bytes, padding included)
differs from the device-reported checksum at the same index, at target
address `base + page_index * flash_page_size`; pages with equal checksums
are skipped. -/
theorem flash_checksum_diff_writes_exactly_mismatched_pages
    (address page n : Nat) (binary dev : List Nat) (hp : 0 < page)
    (hlen : binary.length = n * page) (hdev : n ≤ dev.length)
    (hov : address + n * page ≤ 2 ^ 32) :
    flashWrites address page binary dev =
      some (((List.range n).filter fun i =>
          crc16xmodem ((binary.drop (i * page)).take page) ≠ dev.getD i 0).map
        fun i => (address + page * i, (binary.drop (i * page)).take page)) := by
  have hch := chunksList_eq page n hp binary hlen
  have hchlen : (chunksList page binary).length = n := by rw [hch]; simp
  rw [flashWrites, if_neg (Nat.pos_iff_ne_zero.mp hp)]
  have h1 : 0 + (chunksList page binary).length ≤ dev.length := by rw [hchlen]; omega
  have h2 : address + page * (0 + (chunksList page binary).length) ≤ 2 ^ 32 := by
    rw [hchlen, Nat.zero_add, Nat.mul_comm]; exact hov
  rw [writeLoop_eq address page dev hp (chunksList page binary) 0 h1 h2, hchlen]
  apply congrArg some
  have hgetD : ∀ j, j < n →
      (chunksList page binary).getD j [] = (binary.drop (j * page)).take page := by
    intro j hj
    rw [hch, List.getD_eq_getElem _ _ (by simpa using hj)]
    simp
  have hfil : ((List.range n).filter fun j =>
        decide (crc16xmodem ((chunksList page binary).getD j []) ≠ dev.getD (0 + j) 0))
      = ((List.range n).filter fun i =>
        decide (crc16xmodem ((binary.drop (i * page)).take page) ≠ dev.getD i 0)) := by
    apply List.filter_congr
    intro j hj
    rw [hgetD j (List.mem_range.mp hj), Nat.zero_add]
  rw [hfil]
  apply List.map_congr_left
  intro j hj
  rw [hgetD j (List.mem_range.mp (List.mem_of_mem_filter hj)), Nat.zero_add]

set_option maxRecDepth 100000 in
/-- C1 witness: three 2-byte pages with local checksums `[A, B, C]` and
device-reported `[A, 0, C]` (0 differs from B): only page index 1 is
written, at address 100 + 2 * 1 = 102. -/
theorem flash_checksum_diff_writes_exactly_mismatched_pages_witness :
    0 < 2
    ∧ ([1, 2, 3, 4, 5, 6] : List Nat).length = 3 * 2
    ∧ 3 ≤ ([4979, 0, 40755] : List Nat).length
    ∧ 100 + 3 * 2 ≤ 2 ^ 32
    ∧ flashWrites 100 2 [1, 2, 3, 4, 5, 6] [4979, 0, 40755] =
        some (((List.range 3).filter fun i =>
            crc16xmodem ((([1, 2, 3, 4, 5, 6] : List Nat).drop (i * 2)).take 2)
              ≠ ([4979, 0, 40755] : List Nat).getD i 0).map
          fun i => (100 + 2 * i, (([1, 2, 3, 4, 5, 6] : List Nat).drop (i * 2)).take 2))
    ∧ flashWrites 100 2 [1, 2, 3, 4, 5, 6] [4979, 0, 40755] = some [(102, [3, 4])] :=
  ⟨by decide, by decide, by decide, by decide,
    flash_checksum_diff_writes_exactly_mismatched_pages 100 2 3 [1, 2, 3, 4, 5, 6]
      [4979, 0, 40755] (by decide) (by decide) (by decide) (by decide),
    by decide⟩

/-! ### Batch-loop lemmas -/

lemma batchLoopAux_stop (fuel ta top steps page maxp : Nat) (h : top ≤ ta) :
    batchLoopAux fuel ta top steps page maxp = [] := by
  cases fuel with
  | zero => rfl
  | succ f => simp [batchLoopAux, Nat.not_lt.mpr h]

lemma batchLoopAux_props (page maxp : Nat) (hp : 0 < page) (hm : 0 < maxp) :
    ∀ (fuel r ta top : Nat), top = ta + r * page → top - ta ≤ fuel →
      (((batchLoopAux fuel ta top (maxp * page) page maxp).map Prod.snd).sum = r)
      ∧ (∀ b ∈ batchLoopAux fuel ta top (maxp * page) page maxp, 1 ≤ b.2 ∧ b.2 ≤ maxp)
      ∧ (∀ j, j < (batchLoopAux fuel ta top (maxp * page) page maxp).length →
          ((batchLoopAux fuel ta top (maxp * page) page maxp).getD j (0, 0)).1
            = ta + (((batchLoopAux fuel ta top (maxp * page) page maxp).map Prod.snd).take j).sum
                * page) := by
  intro fuel
  induction fuel with
  | zero =>
    intro r ta top htop hfuel
    have hr0 : r = 0 := by
      have h2 : r * page = 0 := by omega
      rcases Nat.mul_eq_zero.mp h2 with h | h
      · exact h
      · omega
    subst hr0
    simp [batchLoopAux]
  | succ f ih =>
    intro r ta top htop hfuel
    rcases Nat.eq_zero_or_pos r with hr | hr
    · subst hr
      have hta : top = ta := by simpa using htop
      subst hta
      simp [batchLoopAux]
    · have hlt : ta < top := by
        have := Nat.mul_pos hr hp
        omega
      have hq : (top - ta) / page = r := by
        rw [htop, Nat.add_sub_cancel_left]
        exact Nat.mul_div_cancel r hp
      simp only [batchLoopAux, if_pos hlt, hq]
      rcases Nat.lt_or_ge r maxp with hrm | hrm
      · have htail : batchLoopAux f (ta + maxp * page) top (maxp * page) page maxp = [] := by
          apply batchLoopAux_stop
          rw [htop]
          have : r * page ≤ maxp * page := Nat.mul_le_mul_right page (le_of_lt hrm)
          omega
        rw [if_pos hrm, htail]
        refine ⟨by simp, ?_, ?_⟩
        · intro b hb
          simp only [List.mem_singleton] at hb
          subst hb
          exact ⟨hr, le_of_lt hrm⟩
        · intro j hj
          simp only [List.length_singleton] at hj
          have hj0 : j = 0 := by omega
          subst hj0
          simp
      · rw [if_neg (Nat.not_lt.mpr hrm)]
        have hst1 : 1 ≤ maxp * page :=
          Nat.one_le_iff_ne_zero.mpr (Nat.mul_ne_zero (by omega) (by omega))
        have htop' : top = (ta + maxp * page) + (r - maxp) * page := by
          have h1 : maxp * page + (r - maxp) * page = r * page := by
            rw [← Nat.add_mul, Nat.add_sub_cancel' hrm]
          omega
        have hfuel' : top - (ta + maxp * page) ≤ f := by omega
        obtain ⟨ihsum, ihbound, ihalign⟩ := ih (r - maxp) (ta + maxp * page) top htop' hfuel'
        refine ⟨?_, ?_, ?_⟩
        · simp only [List.map_cons, List.sum_cons, ihsum]
          omega
        · intro b hb
          rcases List.mem_cons.mp hb with hb | hb
          · subst hb
            exact ⟨by omega, le_refl maxp⟩
          · exact ihbound b hb
        · intro j hj
          cases j with
          | zero => simp
          | succ k =>
            have hk : k < (batchLoopAux f (ta + maxp * page) top (maxp * page) page maxp).length := by
              simpa using hj
            have halk := ihalign k hk
            simp only [List.getD_cons_succ, List.map_cons, List.take_succ_cons, List.sum_cons,
              Nat.add_mul] at halk ⊢
            omega

lemma checksumBatchPlan_eq (address padded page mms : Nat) (h6 : 6 ≤ mms) (hp : 0 < page)
    (hov : address + padded < 2 ^ 32) (hst : (mms / 2 - 2) * page < 2 ^ 32) :
    checksumBatchPlan address padded page mms
      = some (batchLoopAux padded address (address + padded) ((mms / 2 - 2) * page) page
          (mms / 2 - 2)) := by
  have hm2 : 2 ≤ mms / 2 := by omega
  have h1 : chkAdd address padded = some (address + padded) := by
    simp only [chkAdd, if_pos hov]
  have h2 : chkSub (mms / 2) 2 = some (mms / 2 - 2) := by
    simp only [chkSub, if_pos hm2]
  have h3 : chkMul (mms / 2 - 2) page = some ((mms / 2 - 2) * page) := by
    simp only [chkMul, if_pos hst]
  have hsz : ¬((mms / 2 - 2) * page = 0) := Nat.mul_ne_zero (by omega) (by omega)
  simp only [checksumBatchPlan, h1, h2, h3, Option.bind_eq_bind, Option.some_bind, if_neg hsz,
    Nat.add_sub_cancel_left]

/-- C3: in checksum-diff flash and in verify (which share this code),
device checksums are requested in batches of at most
`max_pages = max_message_size / 2 - 2` pages, issued in strictly increasing
address order, each batch starting at the address of the first page not yet
covered (so the concatenation of the per-batch results is aligned with the
local page partition) and the batch sizes summing to the local page count;
with `max_message_size = 512` an image of 300 pages of 256 bytes yields
exactly 2 requests covering 254 and 46 pages. -/
theorem checksum_batches_bounded_ordered_aligned :
    (∀ address padded page mms n : Nat, 6 ≤ mms → 0 < page → padded = n * page →
      address + padded < 2 ^ 32 → (mms / 2 - 2) * page < 2 ^ 32 →
      ∃ plan, checksumBatchPlan address padded page mms = some plan
        ∧ (∀ b ∈ plan, 1 ≤ b.2 ∧ b.2 ≤ mms / 2 - 2)
        ∧ (plan.map Prod.snd).sum = n
        ∧ (∀ j, j < plan.length →
            (plan.getD j (0, 0)).1 = address + ((plan.map Prod.snd).take j).sum * page)
        ∧ (∀ j, j + 1 < plan.length →
            (plan.getD j (0, 0)).1 < (plan.getD (j + 1) (0, 0)).1))
    ∧ checksumBatchPlan 0 76800 256 512 = some [(0, 254), (65024, 46)] := by
  constructor
  · intro address padded page mms n h6 hp hpad hov hst
    have hm : 0 < mms / 2 - 2 := by omega
    have hplan := checksumBatchPlan_eq address padded page mms h6 hp hov hst
    have htop : address + padded = address + n * page := by rw [hpad]
    have hfuel : (address + padded) - address ≤ padded := by omega
    obtain ⟨hsum, hbound, halign⟩ :=
      batchLoopAux_props page (mms / 2 - 2) hp hm padded n address (address + padded) htop hfuel
    refine ⟨_, hplan, hbound, hsum, halign, ?_⟩
    intro j hj1
    have hj : j < (batchLoopAux padded address (address + padded) ((mms / 2 - 2) * page) page
        (mms / 2 - 2)).length := by omega
    set plan := batchLoopAux padded address (address + padded) ((mms / 2 - 2) * page) page
      (mms / 2 - 2) with hplandef
    rw [halign j hj, halign (j + 1) hj1]
    have hlenm : j < (plan.map Prod.snd).length := by simpa using hj
    have hts := List.sum_take_succ (plan.map Prod.snd) j hlenm
    have hje : (plan.map Prod.snd)[j] = (plan.getD j (0, 0)).2 := by
      rw [List.getElem_map, List.getD_eq_getElem _ _ hj]
    have hmem : plan.getD j (0, 0) ∈ plan := by
      rw [List.getD_eq_getElem _ _ hj]
      exact List.getElem_mem hj
    have hpos2 : 1 ≤ (plan.getD j (0, 0)).2 := (hbound _ hmem).1
    rw [hts, hje, Nat.add_mul]
    have hepage : 1 ≤ (plan.getD j (0, 0)).2 * page :=
      Nat.one_le_iff_ne_zero.mpr (Nat.mul_ne_zero (by omega) (by omega))
    omega
  · decide

/-- C3 witness: instantiation of the batching properties for
`max_message_size = 512`, 300 pages of 256 bytes at base address 1024. -/
theorem checksum_batches_bounded_ordered_aligned_witness :
    (6 : Nat) ≤ 512 ∧ (0 : Nat) < 256 ∧ (76800 : Nat) = 300 * 256
    ∧ 1024 + 76800 < 2 ^ 32 ∧ (512 / 2 - 2) * 256 < 2 ^ 32
    ∧ (∃ plan, checksumBatchPlan 1024 76800 256 512 = some plan
        ∧ (∀ b ∈ plan, 1 ≤ b.2 ∧ b.2 ≤ 512 / 2 - 2)
        ∧ (plan.map Prod.snd).sum = 300
        ∧ (∀ j, j < plan.length →
            (plan.getD j (0, 0)).1 = 1024 + ((plan.map Prod.snd).take j).sum * 256)
        ∧ (∀ j, j + 1 < plan.length →
            (plan.getD j (0, 0)).1 < (plan.getD (j + 1) (0, 0)).1)) :=
  ⟨by decide, by decide, by decide, by decide, by decide,
    checksum_batches_bounded_ordered_aligned.1 1024 76800 256 512 300
      (by decide) (by decide) (by decide) (by decide) (by decide)⟩

/-- C9: the checksum-batch loops shared by flash and verify complete without
panicking only when `max_message_size ≥ 6`: for `max_message_size ≤ 3` the
u32 expression `max_message_size / 2 - 2` underflows (checked subtraction
panics), and for `max_message_size` 4 or 5 the subtraction yields 0, making
the computed step size 0, and iterating the address range with step 0
panics. -/
theorem checksum_loop_requires_mms_at_least_six :
    (∀ address padded page mms plan,
        checksumBatchPlan address padded page mms = some plan → 6 ≤ mms)
    ∧ (∀ address padded page mms, mms ≤ 3 →
        chkSub (mms / 2) 2 = none ∧ checksumBatchPlan address padded page mms = none)
    ∧ (∀ address padded page mms, mms = 4 ∨ mms = 5 →
        chkSub (mms / 2) 2 = some 0 ∧ (mms / 2 - 2) * page = 0
        ∧ checksumBatchPlan address padded page mms = none) := by
  refine ⟨?_, ?_, ?_⟩
  · intro address padded page mms plan h
    rw [checksumBatchPlan] at h
    cases hA : chkAdd address padded with
    | none =>
      rw [hA, Option.bind_eq_bind, Option.none_bind] at h
      exact Option.noConfusion h
    | some top =>
      rw [hA, Option.bind_eq_bind, Option.some_bind] at h
      by_cases h2 : 2 ≤ mms / 2
      · have hSub : chkSub (mms / 2) 2 = some (mms / 2 - 2) := by
          simp only [chkSub, if_pos h2]
        rw [hSub, Option.some_bind] at h
        cases hM : chkMul (mms / 2 - 2) page with
        | none =>
          rw [hM, Option.none_bind] at h
          exact Option.noConfusion h
        | some steps =>
          rw [hM, Option.some_bind] at h
          by_cases hz : steps = 0
          · rw [if_pos hz] at h
            exact Option.noConfusion h
          · have hmz : mms / 2 - 2 ≠ 0 := by
              intro h0
              apply hz
              rw [h0] at hM
              simp only [chkMul, Nat.zero_mul, if_pos (by positivity : (0 : Nat) < 2 ^ 32)] at hM
              exact (Option.some_inj.mp hM).symm
            omega
      · have hSub : chkSub (mms / 2) 2 = none := by
          simp only [chkSub, if_neg h2]
        rw [hSub, Option.none_bind] at h
        exact Option.noConfusion h
  · intro address padded page mms hm
    have hSub : chkSub (mms / 2) 2 = none := by
      have : ¬(2 ≤ mms / 2) := by omega
      simp only [chkSub, if_neg this]
    refine ⟨hSub, ?_⟩
    cases hA : chkAdd address padded with
    | none => simp only [checksumBatchPlan, hA, Option.bind_eq_bind, Option.none_bind]
    | some top =>
      simp only [checksumBatchPlan, hA, hSub, Option.bind_eq_bind, Option.some_bind,
        Option.none_bind]
  · intro address padded page mms hm
    have h22 : mms / 2 = 2 := by omega
    have hSub : chkSub (mms / 2) 2 = some 0 := by
      simp only [chkSub, h22, if_pos (le_refl 2), Nat.sub_self]
    have hz : (mms / 2 - 2) * page = 0 := by
      rw [h22, Nat.sub_self, Nat.zero_mul]
    refine ⟨hSub, hz, ?_⟩
    have hM : chkMul 0 page = some 0 := by
      simp only [chkMul, Nat.zero_mul, if_pos (by positivity : (0 : Nat) < 2 ^ 32)]
    cases hA : chkAdd address padded with
    | none => simp only [checksumBatchPlan, hA, Option.bind_eq_bind, Option.none_bind]
    | some top =>
      simp only [checksumBatchPlan, hA, hSub, hM, Option.bind_eq_bind, Option.some_bind,
        eq_self_iff_true, if_true]

/-- C9 witness: the loop plans successfully at `max_message_size = 8`
(hence 6 ≤ 8), fails by u32 underflow at 2, and fails by zero step at 4. -/
theorem checksum_loop_requires_mms_at_least_six_witness :
    (6 : Nat) ≤ 8
    ∧ (chkSub (2 / 2) 2 = none ∧ checksumBatchPlan 0 4 4 2 = none)
    ∧ (chkSub (4 / 2) 2 = some 0 ∧ (4 / 2 - 2) * 4 = 0 ∧ checksumBatchPlan 0 4 4 4 = none) :=
  ⟨checksum_loop_requires_mms_at_least_six.1 0 4 4 8 [(0, 1)] (by decide),
    checksum_loop_requires_mms_at_least_six.2.1 0 4 4 2 (by decide),
    checksum_loop_requires_mms_at_least_six.2.2 0 4 4 4 (Or.inl rfl)⟩

/-- C5: verify compares the local checksum sequence with the device sequence
element-wise over exactly the local page count (the assertion passes iff
they agree at every local page index), and on mismatch the pair of sequences
it reports contains, for every mismatching page index (not only the first),
both the expected (locally computed) checksum and the observed
(device-reported) checksum at that index. -/
theorem verify_asserts_elementwise_and_reports_all_mismatches
    (page n : Nat) (binary dev : List Nat) (hp : 0 < page)
    (hlen : binary.length = n * page) (hdev : n ≤ dev.length) :
    verifyCompare page binary dev = some (binaryChecksums page binary, dev.take n)
    ∧ (binaryChecksums page binary).length = n
    ∧ ((binaryChecksums page binary = dev.take n) ↔
        ∀ i, i < n → (binaryChecksums page binary).getD i 0 = dev.getD i 0)
    ∧ (∀ i, i < n → (binaryChecksums page binary).getD i 0
        = crc16xmodem ((binary.drop (i * page)).take page))
    ∧ (∀ i, i < n → (dev.take n).getD i 0 = dev.getD i 0) := by
  have hbclen : (binaryChecksums page binary).length = n := by
    rw [binaryChecksums, List.length_map]
    exact chunksList_length page n hp binary hlen
  have htake : ∀ i, i < n → (dev.take n).getD i 0 = dev.getD i 0 := by
    intro i hi
    have h2 : i < (dev.take n).length := by
      rw [List.length_take]; omega
    rw [List.getD_eq_getElem _ _ h2, List.getD_eq_getElem _ _ (by omega : i < dev.length)]
    exact List.getElem_take dev
  have hbc : binaryChecksums page binary
      = (List.range n).map fun i => crc16xmodem ((binary.drop (i * page)).take page) := by
    rw [binaryChecksums, chunksList_eq page n hp binary hlen, List.map_map]
    rfl
  refine ⟨?_, hbclen, ?_, ?_, htake⟩
  · simp only [verifyCompare, hbclen, if_pos hdev]
  · constructor
    · intro he i hi
      rw [he]
      exact htake i hi
    · intro hpt
      apply List.ext_get
      · rw [hbclen, List.length_take]
        omega
      · intro i h1 h2
        have hi : i < n := by rw [hbclen] at h1; exact h1
        rw [List.get_eq_getElem, List.get_eq_getElem,
          ← List.getD_eq_getElem (binaryChecksums page binary) 0 h1,
          ← List.getD_eq_getElem (dev.take n) 0 h2, htake i hi]
        exact hpt i hi
  · intro i hi
    rw [hbc, List.getD_eq_getElem _ _ (by simpa using hi)]
    simp

set_option maxRecDepth 100000 in
/-- C5 witness: a two-page image against a device response matching the
first page and differing on the second. -/
theorem verify_asserts_elementwise_and_reports_all_mismatches_witness :
    0 < 2 ∧ ([1, 2, 3, 4] : List Nat).length = 2 * 2 ∧ 2 ≤ ([4979, 9] : List Nat).length
    ∧ verifyCompare 2 [1, 2, 3, 4] [4979, 9] =
        some (binaryChecksums 2 [1, 2, 3, 4], ([4979, 9] : List Nat).take 2) :=
  ⟨by decide, by decide, by decide,
    (verify_asserts_elementwise_and_reports_all_mismatches 2 2 [1, 2, 3, 4] [4979, 9]
      (by decide) (by decide) (by decide)).1⟩

set_option maxRecDepth 100000 in
/-- C4 counterexample: a device reporting mode UserApplication makes verify
issue StartFlash (main.rs 174-176), so verify is not free of StartFlash for
every device mode. -/
theorem verify_issues_startflash_counterexample :
    verifyTrace ⟨BinInfoMode.userApplication, 4, 1024, 8⟩ [1, 2, 3, 4] 0
        (fun _ n => List.replicate n 0)
      = some [HCmd.binInfoQ, HCmd.startFlash, HCmd.checksumPages 0 1]
    ∧ HCmd.startFlash ∈ [HCmd.binInfoQ, HCmd.startFlash, HCmd.checksumPages 0 1] := by
  exact ⟨by decide, by decide⟩

/-- C4 (amended): verify never issues WriteFlashPage and never ResetIntoApp;
it issues StartFlash exactly when the reported mode is not Bootloader, and
every command it issues is the BinInfo query, that StartFlash, or a
ChecksumPages request. -/
theorem verify_issues_no_writes_and_startflash_iff_not_bootloader :
    ∀ (bi : BinInfo) (binary : List Nat) (address : Nat)
      (devChk : Nat → Nat → List Nat) (t : List HCmd),
      verifyTrace bi binary address devChk = some t →
      (∀ ta pg, HCmd.writeFlashPage ta pg ∉ t)
      ∧ HCmd.resetIntoApp ∉ t
      ∧ (HCmd.startFlash ∈ t ↔ bi.mode ≠ BinInfoMode.bootloader)
      ∧ HCmd.binInfoQ ∈ t
      ∧ ∀ c ∈ t, c = HCmd.binInfoQ ∨ c = HCmd.startFlash
          ∨ ∃ a np, c = HCmd.checksumPages a np := by
  intro bi binary address devChk t h
  rw [verifyTrace] at h
  simp only [Option.bind_eq_bind, Option.bind_eq_some, Option.pure_def, Option.some_inj] at h
  obtain ⟨padded, hpad, plan, hplan, x, hx, ht⟩ := h
  subst ht
  refine ⟨?_, ?_, ?_, ?_, ?_⟩
  · by_cases hmode : bi.mode = BinInfoMode.bootloader <;>
      simp [hmode, List.mem_append, List.mem_map]
  · by_cases hmode : bi.mode = BinInfoMode.bootloader <;>
      simp [hmode, List.mem_append, List.mem_map]
  · by_cases hmode : bi.mode = BinInfoMode.bootloader <;>
      simp [hmode, List.mem_append, List.mem_map]
  · by_cases hmode : bi.mode = BinInfoMode.bootloader <;>
      simp [hmode, List.mem_append, List.mem_map]
  · intro c hc
    rcases List.mem_append.mp hc with hc1 | hc2
    · rcases List.mem_append.mp hc1 with hc3 | hc4
      · simp only [List.mem_singleton] at hc3
        exact Or.inl hc3
      · by_cases hmode : bi.mode = BinInfoMode.bootloader
        · simp [hmode] at hc4
        · simp only [hmode, ne_eq, not_false_iff, if_true, List.mem_singleton] at hc4
          exact Or.inr (Or.inl hc4)
    · rcases List.mem_map.mp hc2 with ⟨b, _, hb⟩
      exact Or.inr (Or.inr ⟨b.1, b.2, hb.symm⟩)

set_option maxRecDepth 100000 in
/-- C4 witness: a device already in Bootloader mode; the resulting verify
trace contains no StartFlash, no writes and no reset. -/
theorem verify_issues_no_writes_witness :
    HCmd.resetIntoApp ∉ [HCmd.binInfoQ, HCmd.checksumPages 0 1]
    ∧ (HCmd.startFlash ∈ [HCmd.binInfoQ, HCmd.checksumPages 0 1] ↔
        (⟨BinInfoMode.bootloader, 4, 1024, 8⟩ : BinInfo).mode ≠ BinInfoMode.bootloader) :=
  ⟨(verify_issues_no_writes_and_startflash_iff_not_bootloader
      ⟨BinInfoMode.bootloader, 4, 1024, 8⟩ [1, 2, 3, 4] 0 (fun _ n => List.replicate n 0)
      [HCmd.binInfoQ, HCmd.checksumPages 0 1] (by decide)).2.1,
    (verify_issues_no_writes_and_startflash_iff_not_bootloader
      ⟨BinInfoMode.bootloader, 4, 1024, 8⟩ [1, 2, 3, 4] 0 (fun _ n => List.replicate n 0)
      [HCmd.binInfoQ, HCmd.checksumPages 0 1] (by decide)).2.2.1⟩
